import Mathlib

/-!
Shallow embedding of `src/src/mutex.rs` from the futures-locks repository.

The Rust code is a futures-0.1 style mutex: a `Mutex<T>` holds an
`Inner` with a `sync::Mutex<MutexData>` where
`MutexData = { owned : bool, waiters : VecDeque<oneshot::Sender<()>> }`.
Every public operation (`lock`, `try_lock`, `unlock`, the drop glue) takes
the inner `sync::Mutex`, so all operations are serialized; we therefore
model the system as a sequential state machine whose atomic events are the
operations of the public API plus the two RAII drops.

The one-shot channel (`futures::sync::oneshot`) is an external dependency;
it is embedded with its documented futures-0.1 semantics:
`Receiver::close` guarantees that any later `Sender::send` fails (returns
`Err`), a value already sent survives `close` and is returned by the
receiver's `poll`, and polling a closed, never-sent receiver yields
`Err(Canceled)`.  Each channel is identified by its index into a list of
channel states.

A panic (the `expect("Sender::send")` in `unlock`, the `assert!` in
`unlock`, or the `unreachable!()` in `MutexFut::poll`) is modelled by the
`panicked` flag.  A panic inside `unlock` happens while the internal
`sync::Mutex` is held, which poisons it, so every later call of `lock`,
`try_lock` or `unlock` itself panics at `.lock().expect(..)`; we model a
panicked state as absorbing (all further events are no-ops).  The
`assert!(mtx_data.owned)` in `unlock` gets its own flag `assertFired` so
that it can be distinguished from the send panic.

Polling a future that has already resolved (`acquired = true`) violates
the futures-0.1 `Future` contract ("once a future has completed, clients
should not poll it again"); conforming executors never do it, so the model
treats it as a no-op event.
-/

namespace FuturesLocks

/-- State of one `oneshot` channel, as used by the mutex: `pending` (created,
nothing sent, receiver open), `sent` (the wakeup token was sent and not yet
received), `consumed` (the receiver observed the token), `closed` (the
receiver was closed before anything was sent). -/
inductive ChanState
  | pending
  | sent
  | consumed
  | closed
deriving DecidableEq

/-- State of one `MutexFut`: alive with its `acquired` flag and optional
receiver (`none` for an immediately granted future), or dropped. -/
inductive FutSt
  | alive (acquired : Bool) (receiver : Option Nat)
  | dead
deriving DecidableEq

/-- The whole observable state of one `Mutex` together with the futures and
guards derived from it.  `owned` and `waiters` are the fields of the Rust
`MutexData` (waiters holds channel indices, front first); `chans` is the
state of every oneshot channel ever created; `futs` the state of every
`MutexFut` ever created; `guards` the number of live `MutexGuard`s. -/
structure MtxState where
  owned : Bool
  waiters : List Nat
  chans : List ChanState
  futs : List FutSt
  guards : Nat
  panicked : Bool
  assertFired : Bool
deriving DecidableEq

/-- Channel state by index; out-of-range defaults to the inert `consumed`. -/
def chanAt (s : MtxState) (c : Nat) : ChanState := s.chans.getD c .consumed

/-- Future state by index; out-of-range defaults to `dead`. -/
def futAt (s : MtxState) (i : Nat) : FutSt := s.futs.getD i .dead

/-- `Mutex::unlock` (mutex.rs lines 266-276): `assert!(mtx_data.owned)`;
pop the front waiter; if one is present, `tx.send(()).expect("Sender::send")`
— the send succeeds exactly when the receiver is still open (`pending`),
turning the channel into `sent`; sending to a closed receiver returns `Err`
and the `expect` panics.  If the queue is empty, clear `owned`. -/
def unlock (s : MtxState) : MtxState :=
  if s.owned = false then { s with assertFired := true, panicked := true }
  else
    match s.waiters with
    | [] => { s with owned := false }
    | c :: rest =>
      match chanAt s c with
      | .pending => { s with waiters := rest, chans := s.chans.set c .sent }
      | _ => { s with waiters := rest, panicked := true }

/-- `Mutex::lock` (mutex.rs lines 226-236): if owned, create a fresh oneshot
channel, push its sender at the back of `waiters` and return a queued
future; else set `owned` and return an immediately resolved future
(receiver `none`).  The new channel index is `s.chans.length`, the new
future index is `s.futs.length`. -/
def lockOp (s : MtxState) : MtxState :=
  if s.panicked then s
  else if s.owned then
    { s with chans := s.chans ++ [.pending],
             waiters := s.waiters ++ [s.chans.length],
             futs := s.futs ++ [.alive false (some s.chans.length)] }
  else
    { s with owned := true, futs := s.futs ++ [.alive false none] }

/-- Result of `Mutex::try_lock`: `ok` (a guard, mutex.rs line 261),
`wouldBlock` (the `Err(())` of line 258), or `poisoned` (the
`.lock().expect(..)` panic after an earlier panic poisoned the inner
mutex). -/
inductive TryLockRes
  | ok
  | wouldBlock
  | poisoned
deriving DecidableEq

/-- `Mutex::try_lock` (mutex.rs lines 255-263): if owned, fail with the
would-block sentinel and change nothing; else set `owned` and produce a
guard. -/
def tryLockOp (s : MtxState) : MtxState × TryLockRes :=
  if s.panicked then (s, .poisoned)
  else if s.owned then (s, .wouldBlock)
  else ({ s with owned := true, guards := s.guards + 1 }, .ok)

/-- `MutexFut::poll` (mutex.rs lines 83-106): an immediate future (receiver
`none`) sets `acquired` and yields a guard; a queued future polls its
receiver: `NotReady` leaves everything unchanged, `Ready` consumes the
token, sets `acquired` and yields a guard, an `Err` hits the
`unreachable!()` (a panic).  Polling an already-resolved or dropped future
is excluded by the `Future` contract and modelled as a no-op. -/
def pollFut (s : MtxState) (i : Nat) : MtxState :=
  if s.panicked then s
  else
    match futAt s i with
    | .alive false none =>
      { s with futs := s.futs.set i (.alive true none), guards := s.guards + 1 }
    | .alive false (some c) =>
      match chanAt s c with
      | .pending => s
      | .sent =>
        { s with chans := s.chans.set c .consumed,
                 futs := s.futs.set i (.alive true (some c)),
                 guards := s.guards + 1 }
      | _ => { s with panicked := true }
    | _ => s

/-- `MutexFut::drop` (mutex.rs lines 51-81): nothing happens if `acquired`.
Otherwise: an immediate future calls `unlock` (line 77); a queued future
closes its receiver and polls it once: a pending channel becomes `closed`
and nothing is released, a `sent` channel is consumed and `unlock` is
called (line 64), a closed or consumed channel yields `Err(Canceled)` and
nothing is released. -/
def dropFut (s : MtxState) (i : Nat) : MtxState :=
  if s.panicked then s
  else
    match futAt s i with
    | .alive false none => unlock { s with futs := s.futs.set i .dead }
    | .alive false (some c) =>
      match chanAt s c with
      | .pending =>
        { s with chans := s.chans.set c .closed, futs := s.futs.set i .dead }
      | .sent =>
        unlock { s with chans := s.chans.set c .consumed,
                        futs := s.futs.set i .dead }
      | _ => { s with futs := s.futs.set i .dead }
    | .alive true _ => { s with futs := s.futs.set i .dead }
    | .dead => s

/-- `MutexGuard::drop` (mutex.rs lines 17-21): the guard disappears and
`unlock` runs. -/
def dropGuard (s : MtxState) : MtxState :=
  if s.panicked then s
  else if s.guards = 0 then s
  else unlock { s with guards := s.guards - 1 }

/-- Atomic events of the sequential interleaving semantics. -/
inductive Event
  | lockE
  | tryLockE
  | pollE (i : Nat)
  | dropFutE (i : Nat)
  | dropGuardE
deriving DecidableEq

/-- One step of the state machine. -/
def step (s : MtxState) (e : Event) : MtxState :=
  match e with
  | .lockE => lockOp s
  | .tryLockE => (tryLockOp s).1
  | .pollE i => pollFut s i
  | .dropFutE i => dropFut s i
  | .dropGuardE => dropGuard s

/-- `Mutex::new` (mutex.rs lines 164-174): unlocked, empty queue. -/
def mtxInit : MtxState :=
  { owned := false, waiters := [], chans := [], futs := [], guards := 0,
    panicked := false, assertFired := false }

/-- The state after a trace of events from the initial state. -/
def run (tr : List Event) : MtxState := tr.foldl step mtxInit

/-- A state is reachable when some event trace produces it. -/
def Reachable (s : MtxState) : Prop := ∃ tr, run tr = s

/-- Is this future an unobserved immediately-granted future? -/
def isImm : FutSt → Bool
  | .alive false none => true
  | _ => false

/-- Has this channel a sent-but-unobserved wakeup token? -/
def isSent : ChanState → Bool
  | .sent => true
  | _ => false

/-- Number of live, never-polled immediately-granted futures. -/
def immCount (s : MtxState) : Nat := s.futs.countP isImm

/-- Number of channels whose wakeup token was sent but not yet observed. -/
def sentCount (s : MtxState) : Nat := s.chans.countP isSent

/-- Number of entities that currently embody ownership of the mutex: live
guards, unobserved immediately-granted futures, and sent-but-unobserved
wakeup tokens. -/
def holders (s : MtxState) : Nat := s.guards + immCount s + sentCount s

/-- Trace exercising the cancellation path: a holder acquires via
`try_lock`; a second caller's `lock()` queues future 0 with channel 0; that
future is dropped while still queued and unsignaled (closing its receiver
but leaving its sender in the FIFO); then the holder's guard is dropped,
which runs `unlock` on a queue whose front receiver is closed. -/
def bugTrace : List Event :=
  [Event.tryLockE, Event.lockE, Event.dropFutE 0, Event.dropGuardE]

/-- State after one `try_lock` (the holder) followed by `n` queued `lock()`
calls: futures `0..n-1` wait on channels `0..n-1` in FIFO order. -/
def queuedSt (n : Nat) : MtxState :=
  { owned := true, guards := 1, panicked := false, assertFired := false,
    waiters := List.range n,
    chans := List.replicate n ChanState.pending,
    futs := (List.range n).map (fun i => FutSt.alive false (some i)) }

/-- Channel states in the FIFO hand-off scenario after the `(k+1)`-th
release: waiters `0..k-1` already granted and observed, waiter `k` holds
the freshly sent token, waiters above `k` still pending. -/
def fifoChans (n k : Nat) : List ChanState :=
  (List.range n).map (fun i =>
    if i < k then ChanState.consumed
    else if i = k then ChanState.sent else ChanState.pending)

/-- Future states in the FIFO hand-off scenario: waiters below `k` already
resolved, the rest still queued. -/
def fifoFuts (n k : Nat) : List FutSt :=
  (List.range n).map (fun i =>
    if i < k then FutSt.alive true (some i) else FutSt.alive false (some i))

/-- Full state in the FIFO hand-off scenario after the `(k+1)`-th release:
ownership is in flight to waiter `k`, the queue holds waiters `k+1..n-1`. -/
def fifoSt (n k : Nat) : MtxState :=
  { owned := true, guards := 0, panicked := false, assertFired := false,
    waiters := (List.range n).drop (k + 1),
    chans := fifoChans n k,
    futs := fifoFuts n k }

/-- The reference-counted handle (`Mutex<T>` wraps `Arc<Inner<T>>`): the
strong reference count, the lock bookkeeping and the protected payload. -/
structure Handle (T : Type) where
  refcount : Nat
  lockSt : MtxState
  data : T

/-- `Mutex::try_unwrap` (mutex.rs lines 179-189).  `Arc::try_unwrap` is an
external std dependency: per its documentation it returns the inner value
exactly when the strong count is 1 and otherwise gives the unchanged `Arc`
back; the Rust code then moves the payload out of the cell on success and
rewraps the same `Arc` into a `Mutex` on failure. -/
def tryUnwrap {T : Type} (h : Handle T) : Except (Handle T) T :=
  if h.refcount = 1 then Except.ok h.data else Except.error h

theorem isImm_eq_true {f : FutSt} : isImm f = true ↔ f = FutSt.alive false none := by
  cases f with
  | alive a r => cases a <;> cases r <;> simp [isImm]
  | dead => simp [isImm]

theorem isSent_eq_true {c : ChanState} : isSent c = true ↔ c = ChanState.sent := by
  cases c <;> simp [isSent]

theorem isImm_imm : isImm (FutSt.alive false none) = true := rfl

theorem isImm_alive_true (r : Option Nat) : isImm (FutSt.alive true r) = false := rfl

theorem isImm_alive_some (a : Bool) (c : Nat) :
    isImm (FutSt.alive a (some c)) = false := by cases a <;> rfl

theorem isImm_dead : isImm FutSt.dead = false := rfl

theorem isSent_pending : isSent ChanState.pending = false := rfl

theorem isSent_sent : isSent ChanState.sent = true := rfl

theorem isSent_consumed : isSent ChanState.consumed = false := rfl

theorem isSent_closed : isSent ChanState.closed = false := rfl

theorem getD_lt_length {α : Type} {l : List α} {i : Nat} {d v : α}
    (h : l.getD i d = v) (hne : v ≠ d) : i < l.length := by
  by_contra hb
  rw [List.getD_eq_default l d (Nat.le_of_not_lt hb)] at h
  exact hne h.symm

theorem countP_set_eq {α : Type} (p : α → Bool) :
    ∀ (l : List α) (i : Nat) (a d : α), i < l.length →
      (l.set i a).countP p + (if p (l.getD i d) then 1 else 0)
        = l.countP p + (if p a then 1 else 0) := by
  intro l
  induction l with
  | nil => intro i a d h; simp at h
  | cons x xs ih =>
    intro i a d h
    cases i with
    | zero =>
      simp only [List.set_cons_zero, List.countP_cons, List.getD_cons_zero]
      omega
    | succ n =>
      have hn : n < xs.length := by simpa using h
      have h2 := ih n a d hn
      simp only [List.set_cons_succ, List.countP_cons, List.getD_cons_succ]
      omega

theorem getD_set_self {α : Type} (l : List α) (i : Nat) (a d : α)
    (h : i < l.length) : (l.set i a).getD i d = a := by
  rw [List.getD_eq_getElem?_getD, List.getElem?_set_self h]
  rfl

theorem getD_set_ne {α : Type} (l : List α) (i j : Nat) (a d : α)
    (h : i ≠ j) : (l.set i a).getD j d = l.getD j d := by
  rw [List.getD_eq_getElem?_getD, List.getElem?_set_ne h,
    ← List.getD_eq_getElem?_getD]

theorem getD_append_len {α : Type} (l : List α) (a d : α) :
    (l ++ [a]).getD l.length d = a := by
  rw [List.getD_append_right l [a] d l.length (Nat.le_refl _)]
  simp

theorem set_append_len {α : Type} (l : List α) (a b : α) :
    (l ++ [a]).set l.length b = l ++ [b] := by
  induction l with
  | nil => rfl
  | cons x xs ih => simp [ih]

/-- The single inductive invariant of the state machine: the `assert!` in
`unlock` has never fired, at most one guard is live, and — as long as no
panic has occurred — ownership entities number at most one and `owned` is
set exactly when one exists. -/
structure Inv (s : MtxState) : Prop where
  assert_ok : s.assertFired = false
  guards_le : s.guards ≤ 1
  core : s.panicked = false → holders s ≤ 1 ∧ (s.owned = true ↔ holders s = 1)

theorem inv_mtxInit : Inv mtxInit := by
  refine ⟨rfl, by decide, ?_⟩
  intro _
  decide

theorem holders_expand (s : MtxState) :
    holders s = s.guards + s.futs.countP isImm + s.chans.countP isSent := rfl

/-- `unlock` is only ever invoked on an intermediate state in which the
releasing holder has already been removed from the books: `owned` still
set, no guard, no other ownership entity.  In every such state it
re-establishes the invariant. -/
theorem inv_unlock {s : MtxState} (haf : s.assertFired = false)
    (hg : s.guards = 0) (how : s.owned = true) (hh : holders s = 0) :
    Inv (unlock s) := by
  have himm : s.futs.countP isImm = 0 := by
    rw [holders_expand] at hh; omega
  have hsent : s.chans.countP isSent = 0 := by
    rw [holders_expand] at hh; omega
  cases hw : s.waiters with
  | nil =>
    have he : unlock s = { s with owned := false } := by
      simp [unlock, how, hw]
    rw [he]
    refine ⟨haf, by dsimp only; omega, ?_⟩
    intro _
    rw [holders_expand]
    dsimp only
    simp [hg, himm, hsent]
  | cons c rest =>
    cases hc : chanAt s c with
    | pending =>
      have hclen : c < s.chans.length :=
        getD_lt_length hc (by decide)
      have he : unlock s =
          { s with waiters := rest, chans := s.chans.set c .sent } := by
        simp [unlock, how, hw, hc]
      have hcnt := countP_set_eq isSent s.chans c .sent .consumed hclen
      rw [show s.chans.getD c ChanState.consumed = ChanState.pending from hc]
        at hcnt
      simp [isSent] at hcnt
      rw [he]
      refine ⟨haf, by dsimp only; omega, ?_⟩
      intro _
      rw [holders_expand]
      dsimp only
      simp only [how]
      constructor
      · omega
      · simp only [eq_self_iff_true, true_iff]
        omega
    | sent =>
      have he : unlock s = { s with waiters := rest, panicked := true } := by
        simp [unlock, how, hw, hc]
      rw [he]
      exact ⟨haf, by dsimp only; omega,
        by intro hfalse; dsimp only at hfalse; exact absurd hfalse (by decide)⟩
    | consumed =>
      have he : unlock s = { s with waiters := rest, panicked := true } := by
        simp [unlock, how, hw, hc]
      rw [he]
      exact ⟨haf, by dsimp only; omega,
        by intro hfalse; dsimp only at hfalse; exact absurd hfalse (by decide)⟩
    | closed =>
      have he : unlock s = { s with waiters := rest, panicked := true } := by
        simp [unlock, how, hw, hc]
      rw [he]
      exact ⟨haf, by dsimp only; omega,
        by intro hfalse; dsimp only at hfalse; exact absurd hfalse (by decide)⟩

theorem inv_lockOp {s : MtxState} (h : Inv s) : Inv (lockOp s) := by
  cases hp : s.panicked with
  | true => simpa [lockOp, hp] using h
  | false =>
  obtain ⟨hle, hiff⟩ := h.core hp
  rw [holders_expand] at hle hiff
  cases how : s.owned with
  | true =>
    have he : lockOp s =
        { s with chans := s.chans ++ [.pending],
                 waiters := s.waiters ++ [s.chans.length],
                 futs := s.futs ++ [.alive false (some s.chans.length)] } := by
      simp [lockOp, hp, how]
    have him : s.futs.countP isImm + (List.countP isImm
        [FutSt.alive false (some s.chans.length)]) = s.futs.countP isImm := by
      simp [isImm]
    have hse : s.chans.countP isSent + (List.countP isSent
        [ChanState.pending]) = s.chans.countP isSent := by
      simp [isSent]
    simp only [how, true_iff] at hiff
    rw [he]
    refine ⟨h.assert_ok, h.guards_le, ?_⟩
    intro _
    rw [holders_expand]
    dsimp only
    rw [List.countP_append, List.countP_append]
    constructor
    · omega
    · simp only [how, eq_self_iff_true, true_iff]
      omega
  | false =>
    have he : lockOp s =
        { s with owned := true, futs := s.futs ++ [.alive false none] } := by
      simp [lockOp, hp, how]
    have hz : s.guards + s.futs.countP isImm + s.chans.countP isSent = 0 := by
      simp [how] at hiff
      omega
    have him : List.countP isImm [FutSt.alive false none] = 1 := by
      simp [isImm]
    rw [he]
    refine ⟨h.assert_ok, h.guards_le, ?_⟩
    intro _
    rw [holders_expand]
    dsimp only
    rw [List.countP_append]
    constructor
    · omega
    · simp only [eq_self_iff_true, true_iff]
      omega

theorem inv_tryLockOp {s : MtxState} (h : Inv s) : Inv (tryLockOp s).1 := by
  cases hp : s.panicked with
  | true => simpa [tryLockOp, hp] using h
  | false =>
  obtain ⟨hle, hiff⟩ := h.core hp
  rw [holders_expand] at hle hiff
  cases how : s.owned with
  | true => simpa [tryLockOp, hp, how] using h
  | false =>
    have he : (tryLockOp s).1 =
        { s with owned := true, guards := s.guards + 1 } := by
      simp [tryLockOp, hp, how]
    have hz : s.guards + s.futs.countP isImm + s.chans.countP isSent = 0 := by
      simp [how] at hiff
      omega
    rw [he]
    refine ⟨h.assert_ok, by dsimp only; omega, ?_⟩
    intro _
    rw [holders_expand]
    dsimp only
    constructor
    · omega
    · simp only [eq_self_iff_true, true_iff]
      omega

theorem inv_pollFut {s : MtxState} (h : Inv s) (i : Nat) : Inv (pollFut s i) := by
  cases hp : s.panicked with
  | true => simpa [pollFut, hp] using h
  | false =>
  obtain ⟨hle, hiff⟩ := h.core hp
  rw [holders_expand] at hle hiff
  cases hf : futAt s i with
  | dead => simpa [pollFut, hp, hf] using h
  | alive a r =>
    cases a with
    | true =>
      have he : pollFut s i = s := by simp [pollFut, hp, hf]
      rw [he]
      exact h
    | false =>
      cases r with
      | none =>
        have hi : i < s.futs.length := getD_lt_length hf (by simp)
        have he : pollFut s i =
            { s with futs := s.futs.set i (.alive true none),
                     guards := s.guards + 1 } := by
          simp [pollFut, hp, hf]
        have hcf := countP_set_eq isImm s.futs i (.alive true none) .dead hi
        rw [show s.futs.getD i FutSt.dead = FutSt.alive false none from hf]
          at hcf
        simp [isImm_imm, isImm_alive_true] at hcf
        rw [he]
        refine ⟨h.assert_ok, by dsimp only; omega, ?_⟩
        intro _
        rw [holders_expand]
        dsimp only
        constructor
        · omega
        · rw [hiff]
          constructor <;> intro hx <;> omega
      | some c =>
        cases hc : chanAt s c with
        | pending =>
          have he : pollFut s i = s := by simp [pollFut, hp, hf, hc]
          rw [he]
          exact h
        | sent =>
          have hi : i < s.futs.length := getD_lt_length hf (by simp)
          have hclen : c < s.chans.length := getD_lt_length hc (by decide)
          have he : pollFut s i =
              { s with chans := s.chans.set c .consumed,
                       futs := s.futs.set i (.alive true (some c)),
                       guards := s.guards + 1 } := by
            simp [pollFut, hp, hf, hc]
          have hcf := countP_set_eq isImm s.futs i (.alive true (some c)) .dead hi
          rw [show s.futs.getD i FutSt.dead = FutSt.alive false (some c) from hf]
            at hcf
          simp [isImm_alive_some] at hcf
          have hcc := countP_set_eq isSent s.chans c .consumed .consumed hclen
          rw [show s.chans.getD c ChanState.consumed = ChanState.sent from hc]
            at hcc
          simp [isSent_sent, isSent_consumed] at hcc
          rw [he]
          refine ⟨h.assert_ok, by dsimp only; omega, ?_⟩
          intro _
          rw [holders_expand]
          dsimp only
          constructor
          · omega
          · rw [hiff]
            constructor <;> intro hx <;> omega
        | consumed =>
          have he : pollFut s i = { s with panicked := true } := by
            simp [pollFut, hp, hf, hc]
          rw [he]
          exact ⟨h.assert_ok, by dsimp only; exact h.guards_le,
            by intro hfalse; dsimp only at hfalse; exact absurd hfalse (by decide)⟩
        | closed =>
          have he : pollFut s i = { s with panicked := true } := by
            simp [pollFut, hp, hf, hc]
          rw [he]
          exact ⟨h.assert_ok, by dsimp only; exact h.guards_le,
            by intro hfalse; dsimp only at hfalse; exact absurd hfalse (by decide)⟩

theorem inv_dropFut {s : MtxState} (h : Inv s) (i : Nat) : Inv (dropFut s i) := by
  cases hp : s.panicked with
  | true => simpa [dropFut, hp] using h
  | false =>
  obtain ⟨hle, hiff⟩ := h.core hp
  rw [holders_expand] at hle hiff
  cases hf : futAt s i with
  | dead => simpa [dropFut, hp, hf] using h
  | alive a r =>
    have hi : i < s.futs.length := getD_lt_length hf (by simp)
    cases a with
    | true =>
      have he : dropFut s i = { s with futs := s.futs.set i .dead } := by
        simp [dropFut, hp, hf]
      have hcf := countP_set_eq isImm s.futs i .dead .dead hi
      rw [show s.futs.getD i FutSt.dead = FutSt.alive true r from hf] at hcf
      simp [isImm_alive_true, isImm_dead] at hcf
      rw [he]
      refine ⟨h.assert_ok, by dsimp only; exact h.guards_le, ?_⟩
      intro _
      rw [holders_expand]
      dsimp only
      constructor
      · omega
      · rw [hiff]
        constructor <;> intro hx <;> omega
    | false =>
      cases r with
      | none =>
        have he : dropFut s i = unlock { s with futs := s.futs.set i .dead } := by
          simp [dropFut, hp, hf]
        have hcf := countP_set_eq isImm s.futs i .dead .dead hi
        rw [show s.futs.getD i FutSt.dead = FutSt.alive false none from hf] at hcf
        simp [isImm_imm, isImm_dead] at hcf
        rw [he]
        apply inv_unlock
        · exact h.assert_ok
        · dsimp only; omega
        · dsimp only
          exact hiff.mpr (by omega)
        · rw [holders_expand]
          dsimp only
          omega
      | some c =>
        cases hc : chanAt s c with
        | pending =>
          have hclen : c < s.chans.length := getD_lt_length hc (by decide)
          have he : dropFut s i =
              { s with chans := s.chans.set c .closed,
                       futs := s.futs.set i .dead } := by
            simp [dropFut, hp, hf, hc]
          have hcf := countP_set_eq isImm s.futs i .dead .dead hi
          rw [show s.futs.getD i FutSt.dead = FutSt.alive false (some c) from hf]
            at hcf
          simp [isImm_alive_some, isImm_dead] at hcf
          have hcc := countP_set_eq isSent s.chans c .closed .consumed hclen
          rw [show s.chans.getD c ChanState.consumed = ChanState.pending from hc]
            at hcc
          simp [isSent_pending, isSent_closed] at hcc
          rw [he]
          refine ⟨h.assert_ok, by dsimp only; exact h.guards_le, ?_⟩
          intro _
          rw [holders_expand]
          dsimp only
          constructor
          · omega
          · rw [hiff]
            constructor <;> intro hx <;> omega
        | sent =>
          have hclen : c < s.chans.length := getD_lt_length hc (by decide)
          have he : dropFut s i =
              unlock { s with chans := s.chans.set c .consumed,
                              futs := s.futs.set i .dead } := by
            simp [dropFut, hp, hf, hc]
          have hcf := countP_set_eq isImm s.futs i .dead .dead hi
          rw [show s.futs.getD i FutSt.dead = FutSt.alive false (some c) from hf]
            at hcf
          simp [isImm_alive_some, isImm_dead] at hcf
          have hcc := countP_set_eq isSent s.chans c .consumed .consumed hclen
          rw [show s.chans.getD c ChanState.consumed = ChanState.sent from hc]
            at hcc
          simp [isSent_sent, isSent_consumed] at hcc
          rw [he]
          apply inv_unlock
          · exact h.assert_ok
          · dsimp only; omega
          · dsimp only
            exact hiff.mpr (by omega)
          · rw [holders_expand]
            dsimp only
            omega
        | consumed =>
          have he : dropFut s i = { s with futs := s.futs.set i .dead } := by
            simp [dropFut, hp, hf, hc]
          have hcf := countP_set_eq isImm s.futs i .dead .dead hi
          rw [show s.futs.getD i FutSt.dead = FutSt.alive false (some c) from hf]
            at hcf
          simp [isImm_alive_some, isImm_dead] at hcf
          rw [he]
          refine ⟨h.assert_ok, by dsimp only; exact h.guards_le, ?_⟩
          intro _
          rw [holders_expand]
          dsimp only
          constructor
          · omega
          · rw [hiff]
            constructor <;> intro hx <;> omega
        | closed =>
          have he : dropFut s i = { s with futs := s.futs.set i .dead } := by
            simp [dropFut, hp, hf, hc]
          have hcf := countP_set_eq isImm s.futs i .dead .dead hi
          rw [show s.futs.getD i FutSt.dead = FutSt.alive false (some c) from hf]
            at hcf
          simp [isImm_alive_some, isImm_dead] at hcf
          rw [he]
          refine ⟨h.assert_ok, by dsimp only; exact h.guards_le, ?_⟩
          intro _
          rw [holders_expand]
          dsimp only
          constructor
          · omega
          · rw [hiff]
            constructor <;> intro hx <;> omega

theorem inv_dropGuard {s : MtxState} (h : Inv s) : Inv (dropGuard s) := by
  cases hp : s.panicked with
  | true => simpa [dropGuard, hp] using h
  | false =>
  obtain ⟨hle, hiff⟩ := h.core hp
  rw [holders_expand] at hle hiff
  by_cases hg0 : s.guards = 0
  · have he : dropGuard s = s := by simp [dropGuard, hp, hg0]
    rw [he]
    exact h
  · have he : dropGuard s = unlock { s with guards := s.guards - 1 } := by
      simp [dropGuard, hp, hg0]
    rw [he]
    apply inv_unlock
    · exact h.assert_ok
    · dsimp only; omega
    · dsimp only
      exact hiff.mpr (by omega)
    · rw [holders_expand]
      dsimp only
      omega

theorem inv_step {s : MtxState} (h : Inv s) (e : Event) : Inv (step s e) := by
  cases e with
  | lockE => exact inv_lockOp h
  | tryLockE => exact inv_tryLockOp h
  | pollE i => exact inv_pollFut h i
  | dropFutE i => exact inv_dropFut h i
  | dropGuardE => exact inv_dropGuard h

theorem inv_foldl : ∀ (tr : List Event) (s : MtxState),
    Inv s → Inv (tr.foldl step s) := by
  intro tr
  induction tr with
  | nil => intro s h; exact h
  | cons e tl ih => intro s h; exact ih (step s e) (inv_step h e)

theorem inv_run (tr : List Event) : Inv (run tr) :=
  inv_foldl tr mtxInit inv_mtxInit

theorem reachable_inv {s : MtxState} (h : Reachable s) : Inv s := by
  obtain ⟨tr, htr⟩ := h
  rw [← htr]
  exact inv_run tr

/-- C1 (code bug): after constructing and dropping a still-queued,
unresolved `MutexFut` (which closes its receiver but leaves its sender in
the FIFO), the drop of the current holder's guard runs `unlock`, which pops
that sender and panics at `tx.send(()).expect("Sender::send")` — a oneshot
send to a closed receiver returns `Err`.  `owned` stays true with no holder
left, and every later acquisition attempt by any caller fails (`try_lock`
hits the poisoned inner mutex, `lock` likewise), so the lock is permanently
unavailable, contrary to the claim. -/
theorem c1_cancellation_bug :
    (run bugTrace).panicked = true ∧
    (run bugTrace).owned = true ∧
    (run bugTrace).guards = 0 ∧
    (tryLockOp (run bugTrace)).2 = TryLockRes.poisoned ∧
    step (run bugTrace) Event.lockE = run bugTrace ∧
    step (run bugTrace) Event.tryLockE = run bugTrace ∧
    step (run bugTrace) Event.dropGuardE = run bugTrace := by
  decide

/-- C2: `MutexFut::drop` on a not-yet-acquired future follows exactly the
three-case cancellation protocol: an immediately-granted, never-polled
future (receiver `none`) itself calls `unlock`; a queued future whose
token was not delivered closes the receiver and releases nothing (only the
channel closes and the future dies); a queued future whose token was
delivered but never observed detects the token and calls `unlock`,
forwarding ownership to the next waiter. -/
theorem c2_drop_protocol (s : MtxState) (i : Nat) (hp : s.panicked = false) :
    (futAt s i = FutSt.alive false none →
      dropFut s i = unlock { s with futs := s.futs.set i FutSt.dead }) ∧
    (∀ c, futAt s i = FutSt.alive false (some c) →
      chanAt s c = ChanState.pending →
      dropFut s i = { s with chans := s.chans.set c ChanState.closed,
                             futs := s.futs.set i FutSt.dead }) ∧
    (∀ c, futAt s i = FutSt.alive false (some c) →
      chanAt s c = ChanState.sent →
      dropFut s i = unlock { s with chans := s.chans.set c ChanState.consumed,
                                    futs := s.futs.set i FutSt.dead }) := by
  refine ⟨?_, ?_, ?_⟩
  · intro hf
    simp [dropFut, hp, hf]
  · intro c hf hc
    simp [dropFut, hp, hf, hc]
  · intro c hf hc
    simp [dropFut, hp, hf, hc]

theorem c2_drop_protocol_witness :
    dropFut (run [Event.tryLockE, Event.lockE]) 0
      = { run [Event.tryLockE, Event.lockE] with
          chans := (run [Event.tryLockE, Event.lockE]).chans.set 0
            ChanState.closed,
          futs := (run [Event.tryLockE, Event.lockE]).futs.set 0
            FutSt.dead } :=
  (c2_drop_protocol (run [Event.tryLockE, Event.lockE]) 0 (by decide)).2.1 0
    (by decide) (by decide)

/-- C3: in every reachable state — under any interleaving of lock,
try_lock, poll, guard drop and future drop — at most one `MutexGuard` is
live. -/
theorem c3_at_most_one_guard (s : MtxState) (h : Reachable s) : s.guards ≤ 1 :=
  (reachable_inv h).guards_le

theorem c3_at_most_one_guard_witness : (run [Event.tryLockE]).guards ≤ 1 :=
  c3_at_most_one_guard (run [Event.tryLockE]) ⟨[Event.tryLockE], rfl⟩

/-- C5 counterexample: a reachable state (the one produced by the
cancellation-bug trace) in which `owned = true` although no guard, no
unobserved immediately-granted future and no sent-but-unobserved token
exists — the claimed iff fails as stated over all reachable states. -/
theorem c5_counterexample :
    Reachable (run bugTrace) ∧
    (run bugTrace).owned = true ∧ holders (run bugTrace) = 0 :=
  ⟨⟨bugTrace, rfl⟩, by decide, by decide⟩

/-- C5 amended: in every reachable state in which no panic has occurred,
`owned` is true iff a guard, an unobserved immediately-granted future, or
a sent-but-unobserved wakeup token exists; and in every reachable state,
whenever a token has been sent and not yet observed, `try_lock` does not
succeed — there is no window during hand-off in which the lock can be
stolen from the signaled waiter. -/
theorem c5_owned_iff_holder (s : MtxState) (h : Reachable s) :
    (s.panicked = false → (s.owned = true ↔ 0 < holders s)) ∧
    (∀ c, chanAt s c = ChanState.sent →
      (tryLockOp s).2 ≠ TryLockRes.ok) := by
  have hinv := reachable_inv h
  constructor
  · intro hp
    obtain ⟨hle, hiff⟩ := hinv.core hp
    rw [hiff]
    constructor <;> intro hx <;> omega
  · intro c hc
    cases hp : s.panicked with
    | true =>
      rw [show (tryLockOp s).2 = TryLockRes.poisoned from by
        simp [tryLockOp, hp]]
      decide
    | false =>
      obtain ⟨hle, hiff⟩ := hinv.core hp
      have hclen : c < s.chans.length := getD_lt_length hc (by decide)
      have hmem : ChanState.sent ∈ s.chans := by
        have h2 := List.getD_eq_getElem s.chans ChanState.consumed hclen
        unfold chanAt at hc
        rw [h2] at hc
        rw [← hc]
        exact List.getElem_mem hclen
      have hpos : 0 < sentCount s := by
        rw [sentCount, List.countP_pos_iff]
        exact ⟨ChanState.sent, hmem, by rw [isSent_sent]⟩
      have h1 : holders s = 1 := by
        rw [holders_expand] at hle ⊢
        rw [sentCount] at hpos
        omega
      have howned : s.owned = true := hiff.mpr h1
      rw [show (tryLockOp s).2 = TryLockRes.wouldBlock from by
        simp [tryLockOp, hp, howned]]
      decide

theorem c5_owned_iff_holder_witness :
    ((run [Event.tryLockE]).panicked = false →
      ((run [Event.tryLockE]).owned = true ↔ 0 < holders (run [Event.tryLockE]))) ∧
    (∀ c, chanAt (run [Event.tryLockE]) c = ChanState.sent →
      (tryLockOp (run [Event.tryLockE])).2 ≠ TryLockRes.ok) :=
  c5_owned_iff_holder (run [Event.tryLockE]) ⟨[Event.tryLockE], rfl⟩

/-- C6 (code bug): in a reachable state whose front waiter's receiver is
closed (its future was dropped while queued and unsignaled), the next
`unlock` — triggered here by the holder's guard drop — does not complete:
the oneshot send to the closed receiver returns `Err` and the
`expect("Sender::send")` panics, contrary to the claim that unlock
completes without failure or panic. -/
theorem c6_unlock_send_to_closed_panics :
    (run [Event.tryLockE, Event.lockE, Event.dropFutE 0]).panicked = false ∧
    (run [Event.tryLockE, Event.lockE, Event.dropFutE 0]).waiters = [0] ∧
    chanAt (run [Event.tryLockE, Event.lockE, Event.dropFutE 0]) 0
      = ChanState.closed ∧
    (step (run [Event.tryLockE, Event.lockE, Event.dropFutE 0])
      Event.dropGuardE).panicked = true := by
  decide

/-- Polling any live immediately-granted future resolves it and yields a
guard. -/
theorem pollFut_imm (t : MtxState) (i : Nat) (hp2 : t.panicked = false)
    (hfa : futAt t i = FutSt.alive false none) :
    pollFut t i = { t with futs := t.futs.set i (FutSt.alive true none),
                           guards := t.guards + 1 } := by
  simp [pollFut, hp2, hfa]

/-- C7: `lock()` never fails; under the internal critical section it either
(owned) enqueues a fresh receiver at the back of the FIFO and returns a
queued future, or (unowned) sets the ownership flag and returns an
already-resolved future whose first poll yields a guard. -/
theorem c7_lock (s : MtxState) (hp : s.panicked = false) :
    (s.owned = true → lockOp s =
      { s with chans := s.chans ++ [ChanState.pending],
               waiters := s.waiters ++ [s.chans.length],
               futs := s.futs ++ [FutSt.alive false (some s.chans.length)] }) ∧
    (s.owned = false →
      lockOp s = { s with owned := true,
                          futs := s.futs ++ [FutSt.alive false none] } ∧
      pollFut (lockOp s) s.futs.length =
        { s with owned := true,
                 futs := s.futs ++ [FutSt.alive true none],
                 guards := s.guards + 1 }) := by
  refine ⟨?_, ?_⟩
  · intro how
    simp [lockOp, hp, how]
  · intro how
    have he : lockOp s =
        { s with owned := true, futs := s.futs ++ [FutSt.alive false none] } := by
      simp [lockOp, hp, how]
    refine ⟨he, ?_⟩
    rw [he]
    have hfa : futAt
        { s with owned := true, futs := s.futs ++ [FutSt.alive false none] }
        s.futs.length = FutSt.alive false none := by
      unfold futAt
      dsimp only
      exact getD_append_len s.futs _ _
    have hset : (s.futs ++ [FutSt.alive false none]).set s.futs.length
        (FutSt.alive true none) = s.futs ++ [FutSt.alive true none] :=
      set_append_len s.futs _ _
    rw [pollFut_imm _ _ (by dsimp only; exact hp) hfa]
    dsimp only
    rw [hset]

theorem c7_lock_witness :
    lockOp mtxInit =
      { mtxInit with owned := true,
                     futs := mtxInit.futs ++ [FutSt.alive false none] } ∧
    pollFut (lockOp mtxInit) mtxInit.futs.length =
      { mtxInit with owned := true,
                     futs := mtxInit.futs ++ [FutSt.alive true none],
                     guards := mtxInit.guards + 1 } :=
  (c7_lock mtxInit (by decide)).2 (by decide)

/-- C8: `try_lock` never suspends; it returns the would-block sentinel iff
the lock is owned at the call, leaving the state unchanged on that
failure; if unowned it sets the ownership flag and returns a guard; and
immediately after the sole holder's guard is dropped with an empty waiter
queue, a `try_lock` succeeds. -/
theorem c8_try_lock (s : MtxState) (hp : s.panicked = false) :
    ((tryLockOp s).2 = TryLockRes.wouldBlock ↔ s.owned = true) ∧
    (s.owned = true → (tryLockOp s).1 = s) ∧
    (s.owned = false → tryLockOp s =
      ({ s with owned := true, guards := s.guards + 1 }, TryLockRes.ok)) ∧
    (s.owned = true → s.waiters = [] → s.guards ≠ 0 →
      (tryLockOp (dropGuard s)).2 = TryLockRes.ok) := by
  refine ⟨?_, ?_, ?_, ?_⟩
  · cases how : s.owned with
    | true => simp [tryLockOp, hp, how]
    | false => simp [tryLockOp, hp, how]
  · intro how
    simp [tryLockOp, hp, how]
  · intro how
    simp [tryLockOp, hp, how]
  · intro how hw hg
    have he : dropGuard s = unlock { s with guards := s.guards - 1 } := by
      simp [dropGuard, hp, hg]
    rw [he]
    simp [unlock, how, hw, tryLockOp, hp]

theorem c8_try_lock_witness :
    ((tryLockOp (run [Event.tryLockE])).2 = TryLockRes.wouldBlock ↔
      (run [Event.tryLockE]).owned = true) ∧
    (tryLockOp (dropGuard (run [Event.tryLockE]))).2 = TryLockRes.ok :=
  ⟨(c8_try_lock (run [Event.tryLockE]) (by decide)).1,
   (c8_try_lock (run [Event.tryLockE]) (by decide)).2.2.2 (by decide)
     (by decide) (by decide)⟩

/-- C9: `try_unwrap` consumes the handle and returns the payload iff the
shared reference count is exactly 1; otherwise the error value is the
original handle itself, unchanged in lock state and payload and hence fully
interoperable. -/
theorem c9_try_unwrap {T : Type} (h : Handle T) :
    ((∃ t, tryUnwrap h = Except.ok t) ↔ h.refcount = 1) ∧
    (h.refcount = 1 → tryUnwrap h = Except.ok h.data) ∧
    (h.refcount ≠ 1 → tryUnwrap h = Except.error h) := by
  by_cases hr : h.refcount = 1 <;>
    refine ⟨?_, ?_, ?_⟩ <;> simp [tryUnwrap, hr]

theorem c9_try_unwrap_witness :
    tryUnwrap (Handle.mk 1 mtxInit (5 : Nat)) = Except.ok 5 ∧
    tryUnwrap (Handle.mk 2 mtxInit (5 : Nat)) =
      Except.error (Handle.mk 2 mtxInit 5) :=
  ⟨(c9_try_unwrap (Handle.mk 1 mtxInit (5 : Nat))).2.1 rfl,
   (c9_try_unwrap (Handle.mk 2 mtxInit (5 : Nat))).2.2 (by decide)⟩

/-- C10: the `assert!(mtx_data.owned)` at the top of `unlock` never fires:
every invocation of `unlock` — whether from a `MutexGuard` drop or from
the drop of an unobserved `MutexFut` — happens in a state with
`owned = true`, in every reachable state under every interleaving. -/
theorem c10_unlock_assert_never_fires (s : MtxState) (h : Reachable s) :
    s.assertFired = false :=
  (reachable_inv h).assert_ok

theorem c10_unlock_assert_never_fires_witness :
    (run bugTrace).assertFired = false :=
  c10_unlock_assert_never_fires (run bugTrace) ⟨bugTrace, rfl⟩

theorem range_drop_cons (n k : Nat) (h : k < n) :
    (List.range n).drop k = k :: (List.range n).drop (k + 1) := by
  have hlen : k < (List.range n).length := by simpa using h
  rw [List.drop_eq_getElem_cons hlen]
  simp

theorem getD_map_range {α : Type} (f : Nat → α) {n k : Nat} (h : k < n)
    (d : α) : ((List.range n).map f).getD k d = f k := by
  have hlen : k < ((List.range n).map f).length := by simpa using h
  rw [List.getD_eq_getElem _ _ hlen]
  simp

theorem set_map_range {α : Type} (f g : Nat → α) (n k : Nat) (v : α)
    (hk : g k = v) (hne : ∀ i, i ≠ k → g i = f i) :
    ((List.range n).map f).set k v = (List.range n).map g := by
  apply List.ext_getElem
  · simp
  · intro i h1 h2
    rw [List.getElem_set]
    simp only [List.getElem_map, List.getElem_range]
    by_cases hik : k = i
    · rw [if_pos hik, ← hik]
      exact hk.symm
    · rw [if_neg hik]
      exact (hne i (fun hh => hik hh.symm)).symm

theorem fifoFuts_succ (n k : Nat) :
    (fifoFuts n k).set k (FutSt.alive true (some k)) = fifoFuts n (k + 1) := by
  unfold fifoFuts
  apply set_map_range
  · rw [if_pos (by omega)]
  · intro i hi
    by_cases h1 : i < k
    · rw [if_pos h1, if_pos (by omega)]
    · rw [if_neg h1, if_neg (by omega)]

theorem fifoChans_mid (n k : Nat) :
    (fifoChans n k).set k ChanState.consumed = (List.range n).map
      (fun i => if i < k + 1 then ChanState.consumed else ChanState.pending) := by
  unfold fifoChans
  apply set_map_range
  · rw [if_pos (by omega)]
  · intro i hi
    by_cases h1 : i < k
    · rw [if_pos (show i < k + 1 by omega), if_pos h1]
    · rw [if_neg (show ¬ i < k + 1 by omega), if_neg h1, if_neg hi]

theorem fifoChans_succ (n k : Nat) :
    ((fifoChans n k).set k ChanState.consumed).set (k + 1) ChanState.sent
      = fifoChans n (k + 1) := by
  rw [fifoChans_mid]
  unfold fifoChans
  apply set_map_range
  · rw [if_neg (by omega), if_pos rfl]
  · intro i hi
    by_cases h1 : i < k + 1
    · rw [if_pos h1, if_pos h1]
    · rw [if_neg h1, if_neg hi, if_neg h1]

theorem fifoChans_getD_set (n k : Nat) (h : k + 1 < n) :
    ((fifoChans n k).set k ChanState.consumed).getD (k + 1) ChanState.consumed
      = ChanState.pending := by
  rw [getD_set_ne _ _ _ _ _ (by omega)]
  unfold fifoChans
  rw [getD_map_range _ (by omega) _]
  rw [if_neg (by omega), if_neg (by omega)]

theorem unlock_nil (s : MtxState) (how : s.owned = true)
    (hw : s.waiters = []) : unlock s = { s with owned := false } := by
  simp [unlock, how, hw]

theorem unlock_cons (s : MtxState) (c : Nat) (rest : List Nat)
    (how : s.owned = true) (hw : s.waiters = c :: rest)
    (hc : chanAt s c = ChanState.pending) :
    unlock s = { s with waiters := rest,
                        chans := s.chans.set c ChanState.sent } := by
  simp [unlock, how, hw, hc]

theorem pollFut_owned_irrel (s : MtxState) (i : Nat) (b : Bool) :
    pollFut { s with owned := b } i = { pollFut s i with owned := b } := by
  unfold pollFut futAt chanAt
  dsimp only
  cases hp : s.panicked with
  | true => simp [hp]
  | false =>
    cases hfd : s.futs.getD i FutSt.dead with
    | dead => simp [hp]
    | alive a r =>
      cases a with
      | true => simp [hp]
      | false =>
        cases r with
        | none => simp [hp]
        | some c =>
          cases hcd : s.chans[c]?.getD ChanState.consumed with
          | pending => simp [hp, hcd]
          | sent => simp [hp, hcd]
          | consumed => simp [hp, hcd]
          | closed => simp [hp, hcd]

theorem fifo_handoff_cycle (n k : Nat) (h : k + 1 < n) :
    step (step (fifoSt n k) (Event.pollE k)) Event.dropGuardE
      = fifoSt n (k + 1) := by
  have hfa : futAt (fifoSt n k) k = FutSt.alive false (some k) := by
    unfold futAt fifoSt fifoFuts
    dsimp only
    rw [getD_map_range _ (by omega) _]
    rw [if_neg (by omega)]
  have hca : chanAt (fifoSt n k) k = ChanState.sent := by
    unfold chanAt fifoSt fifoChans
    dsimp only
    rw [getD_map_range _ (by omega) _]
    rw [if_neg (by omega), if_pos rfl]
  have he1 : step (fifoSt n k) (Event.pollE k) =
      { fifoSt n k with
        chans := (fifoSt n k).chans.set k ChanState.consumed,
        futs := (fifoSt n k).futs.set k (FutSt.alive true (some k)),
        guards := (fifoSt n k).guards + 1 } := by
    simp [step, pollFut, hfa, hca, show (fifoSt n k).panicked = false from rfl]
  rw [he1]
  have hwcons : (List.range n).drop (k + 1)
      = (k + 1) :: (List.range n).drop (k + 2) := range_drop_cons n (k + 1) h
  have hstep2 : step
      { fifoSt n k with
        chans := (fifoSt n k).chans.set k ChanState.consumed,
        futs := (fifoSt n k).futs.set k (FutSt.alive true (some k)),
        guards := (fifoSt n k).guards + 1 } Event.dropGuardE
      = unlock
      { fifoSt n k with
        chans := (fifoSt n k).chans.set k ChanState.consumed,
        futs := (fifoSt n k).futs.set k (FutSt.alive true (some k)),
        guards := 0 } := by
    simp [step, dropGuard, show (fifoSt n k).panicked = false from rfl,
      show (fifoSt n k).guards = 0 from rfl]
  rw [hstep2]
  have hwx : ({ fifoSt n k with
      chans := (fifoSt n k).chans.set k ChanState.consumed,
      futs := (fifoSt n k).futs.set k (FutSt.alive true (some k)),
      guards := 0 } : MtxState).waiters
      = (k + 1) :: (List.range n).drop (k + 2) := hwcons
  have hcx : chanAt { fifoSt n k with
      chans := (fifoSt n k).chans.set k ChanState.consumed,
      futs := (fifoSt n k).futs.set k (FutSt.alive true (some k)),
      guards := 0 } (k + 1) = ChanState.pending := fifoChans_getD_set n k h
  rw [unlock_cons _ (k + 1) ((List.range n).drop (k + 2)) rfl hwx hcx]
  dsimp only
  rw [show ((fifoSt n k).chans.set k ChanState.consumed).set (k + 1)
      ChanState.sent = fifoChans n (k + 1) from fifoChans_succ n k]
  rw [show (fifoSt n k).futs.set k (FutSt.alive true (some k))
      = fifoFuts n (k + 1) from fifoFuts_succ n k]
  rfl

theorem step_queuedSt_lock (k : Nat) :
    step (queuedSt k) Event.lockE = queuedSt (k + 1) := by
  simp [step, lockOp, queuedSt, List.range_succ, List.replicate_succ',
    List.map_append]

theorem foldl_lock_replicate (n : Nat) : ∀ k : Nat,
    List.foldl step (queuedSt k) (List.replicate n Event.lockE)
      = queuedSt (k + n) := by
  induction n with
  | zero => intro k; rfl
  | succ m ih =>
    intro k
    rw [List.replicate_succ, List.foldl_cons, step_queuedSt_lock, ih (k + 1)]
    rw [show k + 1 + m = k + (m + 1) from by omega]

theorem run_setup_queued (n : Nat) :
    run (Event.tryLockE :: List.replicate n Event.lockE) = queuedSt n := by
  have h0 : step mtxInit Event.tryLockE = queuedSt 0 := by decide
  rw [run, List.foldl_cons, h0, foldl_lock_replicate n 0]
  rw [show 0 + n = n from by omega]

theorem fifo_handoff_base (n : Nat) (h : 0 < n) :
    step (run (Event.tryLockE :: List.replicate n Event.lockE))
      Event.dropGuardE = fifoSt n 0 := by
  rw [run_setup_queued n]
  have hw0 : List.range n = 0 :: (List.range n).drop 1 := by
    have h2 := range_drop_cons n 0 h
    rwa [List.drop_zero] at h2
  have hch0 : (List.replicate n ChanState.pending).getD 0 ChanState.consumed
      = ChanState.pending := by
    rw [List.getD_eq_getElem _ _ (by simpa using h)]
    simp
  have hset0 : (List.replicate n ChanState.pending).set 0 ChanState.sent
      = fifoChans n 0 := by
    have hrep : List.replicate n ChanState.pending
        = (List.range n).map (fun _ => ChanState.pending) := by
      apply List.ext_getElem
      · simp
      · intro i h1 h2
        simp
    rw [hrep]
    unfold fifoChans
    apply set_map_range
    · rw [if_neg (by omega), if_pos rfl]
    · intro i hi
      rw [if_neg (by omega), if_neg hi]
  have hfut0 : ((List.range n).map (fun i => FutSt.alive false (some i)))
      = fifoFuts n 0 := by
    unfold fifoFuts
    apply List.map_congr_left
    intro a _
    rw [if_neg (by omega)]
  have hstep : step (queuedSt n) Event.dropGuardE
      = unlock { queuedSt n with guards := 0 } := by
    simp [step, dropGuard, show (queuedSt n).panicked = false from rfl,
      show (queuedSt n).guards = 1 from rfl]
  rw [hstep]
  have hwx0 : ({ queuedSt n with guards := 0 } : MtxState).waiters
      = 0 :: (List.range n).drop 1 := hw0
  have hcx0 : chanAt { queuedSt n with guards := 0 } 0
      = ChanState.pending := hch0
  rw [unlock_cons _ 0 ((List.range n).drop 1) rfl hwx0 hcx0]
  dsimp only
  rw [show (queuedSt n).chans.set 0 ChanState.sent = fifoChans n 0 from hset0]
  rw [show (queuedSt n).futs = fifoFuts n 0 from hfut0]
  rfl

/-- C4: the release protocol of `unlock` pops the front FIFO entry; if one
is present its token is sent (direct hand-off: the woken waiter's poll does
not consult the `owned` flag, which is proved here by `pollFut` commuting
with arbitrary changes of `owned`); only if the queue is empty is `owned`
cleared.  Consequently, with a holder and `n` queued acquisitions, the
releases grant the waiters strictly in enqueue order, one per release: the
holder's release puts the scenario in stage 0, each waiter's
poll-then-release moves stage `k` to stage `k+1`, and at stage `k` it is
exactly the `k`-th enqueued channel that holds the sent token. -/
theorem c4_release_fifo :
    (∀ s : MtxState, s.owned = true → s.waiters = [] →
      unlock s = { s with owned := false }) ∧
    (∀ (s : MtxState) (c : Nat) (rest : List Nat), s.owned = true →
      s.waiters = c :: rest → chanAt s c = ChanState.pending →
      unlock s = { s with waiters := rest,
                          chans := s.chans.set c ChanState.sent }) ∧
    (∀ (s : MtxState) (i : Nat) (b : Bool),
      pollFut { s with owned := b } i = { pollFut s i with owned := b }) ∧
    (∀ n : Nat, 0 < n →
      step (run (Event.tryLockE :: List.replicate n Event.lockE))
        Event.dropGuardE = fifoSt n 0) ∧
    (∀ n k : Nat, k + 1 < n →
      step (step (fifoSt n k) (Event.pollE k)) Event.dropGuardE
        = fifoSt n (k + 1)) ∧
    (∀ n k : Nat, k < n → chanAt (fifoSt n k) k = ChanState.sent) := by
  refine ⟨?_, ?_, ?_, ?_, ?_, ?_⟩
  · intro s how hw
    exact unlock_nil s how hw
  · intro s c rest how hw hc
    exact unlock_cons s c rest how hw hc
  · intro s i b
    exact pollFut_owned_irrel s i b
  · intro n h
    exact fifo_handoff_base n h
  · intro n k h
    exact fifo_handoff_cycle n k h
  · intro n k h
    unfold chanAt fifoSt fifoChans
    dsimp only
    rw [getD_map_range _ h _]
    rw [if_neg (by omega), if_pos rfl]

theorem c4_release_fifo_witness :
    step (step (fifoSt 3 0) (Event.pollE 0)) Event.dropGuardE = fifoSt 3 1 ∧
    chanAt (fifoSt 3 1) 1 = ChanState.sent ∧
    step (run (Event.tryLockE :: List.replicate 3 Event.lockE))
      Event.dropGuardE = fifoSt 3 0 :=
  ⟨c4_release_fifo.2.2.2.2.1 3 0 (by omega),
   c4_release_fifo.2.2.2.2.2 3 1 (by omega),
   c4_release_fifo.2.2.2.1 3 (by omega)⟩

end FuturesLocks
